import Mathlib

/-!
Verification of the getlit-contracts fetcher/generator (src/index.mjs).

The script fetches a contract registry, compares each remote contract
against the locally cached JSON artifact, and (re)generates per-contract
files plus an aggregate index.  We shallowly embed the script: JSON values
become an inductive type, `JSON.stringify(v, null, 2)` and `JSON.parse`
become executable Lean functions, the filesystem becomes a map from paths
to file contents, and the main loop becomes a fold over the fetched
descriptor list threading the mutable `shouldUpdate` flag and an event
trace (writes, directory creation, console messages).
-/

namespace GetLit

/-- JSON values.  Numbers are modelled as integers (the registry and
artifact data the script handles carry no fractional literals). -/
inductive JsonV where
  | null : JsonV
  | bool : Bool → JsonV
  | num : Int → JsonV
  | str : String → JsonV
  | arr : List JsonV → JsonV
  | obj : List (String × JsonV) → JsonV

mutual

/-- Boolean equality on JSON values. -/
def JsonV.beq : JsonV → JsonV → Bool
  | .null, .null => true
  | .bool a, .bool b => a = b
  | .num a, .num b => a = b
  | .str a, .str b => a = b
  | .arr a, .arr b => beqArr a b
  | .obj a, .obj b => beqObj a b
  | _, _ => false

/-- Boolean equality on lists of JSON values. -/
def beqArr : List JsonV → List JsonV → Bool
  | [], [] => true
  | a :: as, b :: bs => JsonV.beq a b && beqArr as bs
  | _, _ => false

/-- Boolean equality on lists of JSON object members. -/
def beqObj : List (String × JsonV) → List (String × JsonV) → Bool
  | [], [] => true
  | (k, v) :: as, (k', v') :: bs => k = k' && JsonV.beq v v' && beqObj as bs
  | _, _ => false

end

mutual

theorem JsonV.beq_iff : ∀ (a b : JsonV), (JsonV.beq a b = true) ↔ a = b
  | .null, b => by cases b <;> simp [JsonV.beq]
  | .bool x, b => by cases b <;> simp [JsonV.beq]
  | .num x, b => by cases b <;> simp [JsonV.beq]
  | .str x, b => by cases b <;> simp [JsonV.beq]
  | .arr xs, b => by
      cases b <;> simp [JsonV.beq]
      exact beqArr_iff xs _
  | .obj xs, b => by
      cases b <;> simp [JsonV.beq]
      exact beqObj_iff xs _

theorem beqArr_iff : ∀ (as bs : List JsonV), (beqArr as bs = true) ↔ as = bs
  | [], [] => by simp [beqArr]
  | [], _ :: _ => by simp [beqArr]
  | _ :: _, [] => by simp [beqArr]
  | a :: as, b :: bs => by
      simp [beqArr, Bool.and_eq_true, JsonV.beq_iff a b, beqArr_iff as bs]

theorem beqObj_iff : ∀ (as bs : List (String × JsonV)), (beqObj as bs = true) ↔ as = bs
  | [], [] => by simp [beqObj]
  | [], _ :: _ => by simp [beqObj]
  | _ :: _, [] => by simp [beqObj]
  | (k, v) :: as, (k', v') :: bs => by
      simp [beqObj, Bool.and_eq_true, JsonV.beq_iff v v', beqObj_iff as bs,
        and_assoc]

end

instance : DecidableEq JsonV := fun a b => decidable_of_iff _ (JsonV.beq_iff a b)

/-- Escape one character the way `JSON.stringify` escapes string contents
(the escapes the script's data can contain). -/
def escChar (c : Char) : String :=
  if c = '"' then "\\\""
  else if c = '\\' then "\\\\"
  else if c = '\n' then "\\n"
  else if c = '\t' then "\\t"
  else if c = '\r' then "\\r"
  else String.singleton c

/-- Quote a string as a JSON string literal. -/
def jsonQuote (s : String) : String :=
  "\"" ++ String.join (s.data.map escChar) ++ "\""

/-- Two spaces of indentation per nesting level, as produced by
`JSON.stringify(v, null, 2)`. -/
def spaces : Nat → String
  | 0 => ""
  | n + 1 => "  " ++ spaces n

mutual

/-- Model of `JSON.stringify(v, null, 2)` at nesting depth `d`. -/
def jStr (d : Nat) : JsonV → String
  | .null => "null"
  | .bool true => "true"
  | .bool false => "false"
  | .num n => toString n
  | .str s => jsonQuote s
  | .arr [] => "[]"
  | .arr (v :: vs) =>
      "[\n" ++ String.intercalate ",\n" (jStrArr (d + 1) (v :: vs)) ++
        "\n" ++ spaces d ++ "]"
  | .obj [] => "\x7b\x7d"
  | .obj (kv :: kvs) =>
      "\x7b\n" ++ String.intercalate ",\n" (jStrObj (d + 1) (kv :: kvs)) ++
        "\n" ++ spaces d ++ "\x7d"

/-- Render each array element at depth `d`, with its indentation. -/
def jStrArr (d : Nat) : List JsonV → List String
  | [] => []
  | v :: vs => (spaces d ++ jStr d v) :: jStrArr d vs

/-- Render each object member at depth `d`, with its indentation. -/
def jStrObj (d : Nat) : List (String × JsonV) → List String
  | [] => []
  | (k, v) :: kvs => (spaces d ++ jsonQuote k ++ ": " ++ jStr d v) :: jStrObj d kvs

end

/-- Model of `JSON.stringify(v, null, 2)`. -/
def jsonStringify (v : JsonV) : String := jStr 0 v

/-- Drop leading JSON whitespace. -/
def skipWs : List Char → List Char
  | [] => []
  | c :: cs => if c = ' ' ∨ c = '\n' ∨ c = '\t' ∨ c = '\r' then skipWs cs else c :: cs

/-- Parse the body of a JSON string literal (the opening quote already
consumed), returning the decoded contents and the remainder after the
closing quote. -/
def parseStrAux (acc : List Char) : List Char → Option (String × List Char)
  | [] => none
  | c :: cs =>
    if c = '"' then some (⟨acc.reverse⟩, cs)
    else if c = '\\' then
      match cs with
      | [] => none
      | e :: cs' =>
        if e = '"' then parseStrAux ('"' :: acc) cs'
        else if e = '\\' then parseStrAux ('\\' :: acc) cs'
        else if e = '/' then parseStrAux ('/' :: acc) cs'
        else if e = 'n' then parseStrAux ('\n' :: acc) cs'
        else if e = 't' then parseStrAux ('\t' :: acc) cs'
        else if e = 'r' then parseStrAux ('\r' :: acc) cs'
        else none
    else parseStrAux (c :: acc) cs

/-- Accumulate a run of decimal digits. -/
def parseDigits (acc : Nat) : List Char → Nat × List Char
  | [] => (acc, [])
  | c :: cs =>
    if c.isDigit then parseDigits (acc * 10 + (c.toNat - 48)) cs
    else (acc, c :: cs)

/-- The opening-brace character, by code point. -/
def lbrace : Char := Char.ofNat 123

/-- The closing-brace character, by code point. -/
def rbrace : Char := Char.ofNat 125

mutual

/-- Fuel-bounded JSON value parser (model of `JSON.parse`). -/
def parseVal : Nat → List Char → Option (JsonV × List Char)
  | 0, _ => none
  | fuel + 1, cs =>
    match skipWs cs with
    | [] => none
    | c :: rest =>
      if c = '"' then
        match parseStrAux [] rest with
        | some (s, r) => some (.str s, r)
        | none => none
      else if c = '[' then
        match skipWs rest with
        | ']' :: r => some (.arr [], r)
        | r =>
          match parseElems fuel r with
          | some (vs, r') => some (.arr vs, r')
          | none => none
      else if c = lbrace then
        match skipWs rest with
        | [] => none
        | c' :: r =>
          if c' = rbrace then some (.obj [], r)
          else
            match parseMembers fuel (c' :: r) with
            | some (kvs, r') => some (.obj kvs, r')
            | none => none
      else if c = 'n' then
        match rest with
        | 'u' :: 'l' :: 'l' :: r => some (.null, r)
        | _ => none
      else if c = 't' then
        match rest with
        | 'r' :: 'u' :: 'e' :: r => some (.bool true, r)
        | _ => none
      else if c = 'f' then
        match rest with
        | 'a' :: 'l' :: 's' :: 'e' :: r => some (.bool false, r)
        | _ => none
      else if c.isDigit then
        let p := parseDigits (c.toNat - 48) rest
        some (.num (Int.ofNat p.1), p.2)
      else if c = '-' then
        match rest with
        | d :: rest' =>
          if d.isDigit then
            let p := parseDigits (d.toNat - 48) rest'
            some (.num (-(Int.ofNat p.1)), p.2)
          else none
        | [] => none
      else none

/-- Parse the elements of a non-empty JSON array, up to and including the
closing bracket. -/
def parseElems : Nat → List Char → Option (List JsonV × List Char)
  | 0, _ => none
  | fuel + 1, cs =>
    match parseVal fuel cs with
    | none => none
    | some (v, rest) =>
      match skipWs rest with
      | ',' :: r =>
        match parseElems fuel r with
        | some (vs, r') => some (v :: vs, r')
        | none => none
      | ']' :: r => some ([v], r)
      | _ => none

/-- Parse the members of a non-empty JSON object, up to and including the
closing brace. -/
def parseMembers : Nat → List Char → Option (List (String × JsonV) × List Char)
  | 0, _ => none
  | fuel + 1, cs =>
    match skipWs cs with
    | [] => none
    | c :: rest =>
      if c = '"' then
        match parseStrAux [] rest with
        | none => none
        | some (k, r1) =>
          match skipWs r1 with
          | ':' :: r2 =>
            match parseVal fuel r2 with
            | none => none
            | some (v, r3) =>
              match skipWs r3 with
              | ',' :: r4 =>
                match parseMembers fuel r4 with
                | some (kvs, r5) => some ((k, v) :: kvs, r5)
                | none => none
              | c' :: r4 => if c' = rbrace then some ([(k, v)], r4) else none
              | [] => none
          | _ => none
      else none

end

/-- Model of `JSON.parse`: parse a complete JSON document, rejecting
trailing garbage. -/
def jsParse (s : String) : Option JsonV :=
  match parseVal (2 * s.length + 2) s.data with
  | some (v, rest) => if skipWs rest = [] then some v else none
  | none => none

/-- Last-wins key lookup, matching how `JSON.parse` resolves duplicate
object keys in JavaScript. -/
def lookupKv : List (String × JsonV) → String → Option JsonV
  | [], _ => none
  | (k', v) :: rest, k =>
    match lookupKv rest k with
    | some r => some r
    | none => if k' = k then some v else none

/-- Property access `obj.field` on a parsed JSON value: defined on
objects, `undefined` (here `none`) otherwise. -/
def JsonV.getField : JsonV → String → Option JsonV
  | .obj kvs, k => lookupKv kvs k
  | _, _ => none

/-- One entry of a registry item's `contracts` array. -/
structure RegContract where
  inserted_at : String
  address_hash : String
  ctype : String
  ABIUrl : String
deriving Repr, DecidableEq

/-- One item of the registry response's `data` array. -/
structure RegItem where
  name : String
  symbol : String
  contracts : List RegContract
deriving Repr, DecidableEq

/-- The registry endpoint's response envelope. -/
structure RegistryResponse where
  success : Bool
  data : List RegItem
deriving Repr, DecidableEq

/-- Descriptor after the first mapping pass in `getContracts` (the
`type` field has been deleted, the ABI not yet fetched). -/
structure PreDescriptor where
  date : String
  name : String
  symbol : String
  address : String
  ABIUrl : String
deriving Repr, DecidableEq

/-- Fully fetched contract descriptor: one remote contract with its
parsed ABI, as produced by `getContracts`. -/
structure Descriptor where
  date : String
  name : String
  symbol : String
  address : String
  abi : JsonV
deriving DecidableEq

/-- JavaScript array indexing `l[i]` with an integer index: `undefined`
(here `none`) when out of range, including all negative indices. -/
def listGetInt {α : Type} (l : List α) : Int → Option α
  | Int.ofNat n => l.get? n
  | Int.negSucc _ => none

/-- Map a fallible function over a list, stopping at the first error,
as the script's sequential `map` / `for` loops do. -/
def mapExcept {α β : Type} (f : α → Except String β) : List α → Except String (List β)
  | [] => .ok []
  | a :: as =>
    match f a with
    | .error e => .error e
    | .ok b =>
      match mapExcept f as with
      | .error e => .error e
      | .ok bs => .ok (b :: bs)

/-- The body of the `data.data.map((item) => ...)` callback in
`getContracts`: select `item.contracts[index]` (a `TypeError` — rethrown
as an error — when that element is `undefined`) and build the descriptor,
with the `type` field already deleted. -/
def regItemToPre (index : Int) (item : RegItem) : Except String PreDescriptor :=
  match listGetInt item.contracts index with
  | none => .error "Error: TypeError: cannot read properties of undefined"
  | some rc =>
    .ok { date := rc.inserted_at, name := item.name, symbol := item.symbol,
          address := rc.address_hash, ABIUrl := rc.ABIUrl }

/-- The body of the per-contract ABI loop in `getContracts`: fetch the
ABI URL, extract the `result` field (given by the `abiFetch`
collaborator) and parse it as embedded JSON, deleting `ABIUrl`. -/
def fetchAbi (abiFetch : String → Except String String) (p : PreDescriptor) :
    Except String Descriptor :=
  match abiFetch p.ABIUrl with
  | .error e => .error ("Error: " ++ e)
  | .ok result =>
    match jsParse result with
    | none => .error "Error: SyntaxError: JSON.parse"
    | some abi =>
      .ok { date := p.date, name := p.name, symbol := p.symbol,
            address := p.address, abi := abi }

/-- Model of `getContracts({index})` in src/index.mjs.  The two network
collaborators are inputs: `registry` is the outcome of fetching and
JSON-decoding the registry endpoint, and `abiFetch url` is the outcome of
fetching a contract's ABI endpoint and extracting its `result` string
field.  Any fetch failure, a non-`true` `success` flag, an out-of-range
`contracts[index]` access (`TypeError` on reading `inserted_at` of
`undefined`), or a `result` field that is not valid JSON is rethrown by
the surrounding `try`/`catch` and aborts the whole call. -/
def getContracts (index : Int) (registry : Except String RegistryResponse)
    (abiFetch : String → Except String String) : Except String (List Descriptor) :=
  match registry with
  | .error e => .error ("Error: " ++ e)
  | .ok reg =>
    if reg.success = true then
      match mapExcept (regItemToPre index) reg.data with
      | .error e => .error e
      | .ok pres => mapExcept (fetchAbi abiFetch) pres
    else .error "Error: Failed to fetch data."

/-- Model of `name.replace(" ", "")` on the character list: JavaScript's
`String.prototype.replace` with a string pattern replaces only the FIRST
occurrence. -/
def replaceFirstSpace : List Char → List Char
  | [] => []
  | c :: cs => if c = ' ' then cs else c :: replaceFirstSpace cs

/-- The sanitized contract name `_name = name.replace(" ", "")`. -/
def sanitizeName (s : String) : String := ⟨replaceFirstSpace s.data⟩

/-- The per-contract subdirectory `OUTDIR/_name.sol`. -/
def solDir (outdir n : String) : String := outdir ++ "/" ++ n ++ ".sol"

/-- The cached artifact path `OUTDIR/_name.sol/_name.json`. -/
def artifactPath (outdir n : String) : String :=
  solDir outdir n ++ "/" ++ n ++ ".json"

/-- The aggregate index path `OUTDIR/types.ts`. -/
def typesPath (outdir : String) : String := outdir ++ "/types.ts"

/-- The serialized artifact
`JSON.stringify({date, address, contractName: _name, abi: ABI}, null, 2)`. -/
def contractInfo (date address n : String) (abi : JsonV) : String :=
  jStr 0 (.obj [("date", .str date), ("address", .str address),
                ("contractName", .str n), ("abi", abi)])

/-- Content of the `_name + "Data"` modules (`.js`, `.mjs` and `.ts` are
written with identical content). -/
def dataModule (n info : String) : String :=
  "export const " ++ n ++ "Data = " ++ info

/-- Content of `_name + "Contract.js"`. -/
def contractJsModule (n : String) : String :=
  "import \x7b ethers \x7d from \"ethers\";\nimport \x7b " ++ n ++
    "Data \x7d from \"./" ++ n ++ "Data.js\";\n\nexport const get" ++ n ++
    "Contract = (provider) => new ethers.Contract(\n  " ++ n ++
    "Data.address,\n  " ++ n ++ "Data.abi,\n  provider\n);"

/-- Content of `_name + "Contract.mjs"`. -/
def contractMjsModule (n : String) : String :=
  "import \x7b ethers \x7d from \"ethers\";\nimport \x7b " ++ n ++
    "Data \x7d from \"./" ++ n ++ "Data.mjs\";\n\nexport const get" ++ n ++
    "Contract = (provider) => new ethers.Contract(\n  " ++ n ++
    "Data.address,\n  " ++ n ++ "Data.abi,\n  provider\n);"

/-- Content of `_name + "Contract.ts"`. -/
def contractTsModule (n : String) : String :=
  "import \x7b ethers \x7d from \"ethers\";\nimport \x7b " ++ n ++
    "Data \x7d from \"./" ++ n ++ "Data\";\nimport \x7b " ++ n ++
    " \x7d from \"./" ++ n ++ "\";\n\nexport const get" ++ n ++
    "Contract = (provider: any) => \x7b\n  return new ethers.Contract(\n    " ++
    n ++ "Data.address,\n    " ++ n ++ "Data.abi,\n    provider\n  ) as unknown as " ++
    n ++ ";\n\x7d"

/-- Content of the per-contract `index.ts`. -/
def indexTsModule (n : String) : String :=
  "export * from \"./" ++ n ++ "Data\";\nexport * from \"./" ++ n ++
    "Contract\";\nexport * from \"./" ++ n ++ "\";"

/-- Content of the per-contract `index.js`. -/
def indexJsModule (n : String) : String :=
  "export * from \"./" ++ n ++ "Data.js\";\nexport * from \"./" ++ n ++
    "Contract.js\";"

/-- Content of the per-contract `index.mjs`. -/
def indexMjsModule (n : String) : String :=
  "export * from \"./" ++ n ++ "Data.mjs\";\nexport * from \"./" ++ n ++
    "Contract.mjs\";"

/-- Modelled from the spec: the external Binding Generator (`runTypeChain`
with target `ethers-v5`) is an opaque external collaborator not present in
this repository.  Per the spec it deterministically produces a typed
bindings module `_name.ts` in the same subdirectory from the JSON
artifact; its content is opaque, so we model it as a fixed injective
function of the artifact text. -/
def typeChainModule (info : String) : String :=
  "// generated typed bindings\n" ++ info

/-- The ordered list of (path, content) file writes lines 180-272 of
src/index.mjs perform for one contract. -/
def contractWrites (outdir : String) (c : Descriptor) : List (String × String) :=
  let n := sanitizeName c.name
  let info := contractInfo c.date c.address n c.abi
  [ (artifactPath outdir n, info),
    (solDir outdir n ++ "/" ++ n ++ "Data.js", dataModule n info),
    (solDir outdir n ++ "/" ++ n ++ "Data.mjs", dataModule n info),
    (solDir outdir n ++ "/" ++ n ++ "Data.ts", dataModule n info),
    (solDir outdir n ++ "/" ++ n ++ ".ts", typeChainModule info),
    (solDir outdir n ++ "/" ++ n ++ "Contract.js", contractJsModule n),
    (solDir outdir n ++ "/" ++ n ++ "Contract.mjs", contractMjsModule n),
    (solDir outdir n ++ "/" ++ n ++ "Contract.ts", contractTsModule n),
    (solDir outdir n ++ "/index.ts", indexTsModule n),
    (solDir outdir n ++ "/index.js", indexJsModule n),
    (solDir outdir n ++ "/index.mjs", indexMjsModule n) ]

/-- Observable side effects of the run, in order: file writes, directory
creation, and the three kinds of console messages the loop prints. -/
inductive Event where
  | write (path content : String) : Event
  | ensureDir (path : String) : Event
  | warnNewer (name : String) : Event
  | infoLatest (name : String) : Event
  | infoGenerating (name : String) : Event
deriving Repr, DecidableEq

/-- Run state: the filesystem (a map from path to file content; the
script only ever creates or overwrites whole files), the mutable global
`shouldUpdate` flag, and the event trace. -/
structure RunState where
  files : String → Option String
  shouldUpdate : Bool
  events : List Event

/-- Record one `fs.writeFileSync`. -/
def writeEvt (st : RunState) (p c : String) : RunState :=
  { st with files := fun q => if q = p then some c else st.files q,
            events := st.events ++ [Event.write p c] }

/-- Perform a list of file writes in order. -/
def applyWrites (l : List (String × String)) (st : RunState) : RunState :=
  l.foldl (fun s pc => writeEvt s pc.1 pc.2) st

/-- Lines 162-272 of src/index.mjs: ensure the per-contract directory,
print the "generating" message, then perform the eleven writes — the
write block itself is gated on the (mutable) `shouldUpdate` flag. -/
def generateBlock (outdir : String) (st : RunState) (c : Descriptor) : RunState :=
  let st1 := { st with events := st.events ++
      [Event.ensureDir (solDir outdir (sanitizeName c.name)),
       Event.infoGenerating c.name] }
  if st1.shouldUpdate then applyWrites (contractWrites outdir c) st1
  else st1

/-- One iteration of the main `for (const contract of data)` loop
(lines 126-273 of src/index.mjs).  Reading an existing artifact that is
not valid JSON makes `JSON.parse` throw, aborting the run. -/
def processContract (outdir : String) (st : RunState) (c : Descriptor) :
    Except String RunState :=
  let n := sanitizeName c.name
  let path := artifactPath outdir n
  match st.files path with
  | some cached =>
    match jsParse cached with
    | none => .error ("Error: SyntaxError: JSON.parse at " ++ path)
    | some existing =>
      if JsonV.getField existing "address" ≠ some (JsonV.str c.address) then
        if st.shouldUpdate = false then
          .ok { st with events := st.events ++ [Event.warnNewer c.name] }
        else
          .ok (generateBlock outdir st c)
      else
        .ok { st with events := st.events ++ [Event.infoLatest c.name] }
  | none =>
      .ok (generateBlock outdir { st with shouldUpdate := true } c)

/-- The main loop over all fetched descriptors, stopping with the state
at failure if an iteration throws. -/
def mainLoop (outdir : String) : RunState → List Descriptor → RunState × Option String
  | st, [] => (st, none)
  | st, c :: cs =>
    match processContract outdir st c with
    | .error e => (st, some e)
    | .ok st' => mainLoop outdir st' cs

/-- Content of the aggregate `types.ts`: note that the source builds each
re-export from the RAW `item.name`, not the sanitized `_name`. -/
def typesFileContent (data : List Descriptor) : String :=
  String.intercalate "\n"
    (data.map (fun d => "export * from \"./" ++ d.name ++ ".sol/" ++ d.name ++ ".ts\";"))

/-- The whole script run (src/index.mjs top level): ensure the output
directory, fetch the descriptors (aborting on any fetch/parse error
before touching any contract file), run the main loop, and finally write
`OUTDIR/types.ts` if the `shouldUpdate` flag is set at that point.
Returns the final state and the error, if the run aborted. -/
def runScript (update : Bool) (outdir : String) (index : Int)
    (registry : Except String RegistryResponse)
    (abiFetch : String → Except String String)
    (fs0 : String → Option String) : RunState × Option String :=
  let st0 : RunState := { files := fs0, shouldUpdate := update,
                          events := [Event.ensureDir outdir] }
  match getContracts index registry abiFetch with
  | .error e => (st0, some e)
  | .ok data =>
    match mainLoop outdir st0 data with
    | (st, some e) => (st, some e)
    | (st, none) =>
      if st.shouldUpdate then
        (writeEvt st (typesPath outdir) (typesFileContent data), none)
      else (st, none)

/-! Basic lemmas about the write primitives. -/

theorem writeEvt_files (st : RunState) (p c q : String) :
    (writeEvt st p c).files q = if q = p then some c else st.files q := rfl

theorem applyWrites_files_notin (l : List (String × String)) :
    ∀ (st : RunState) (p : String), p ∉ l.map Prod.fst →
      (applyWrites l st).files p = st.files p := by
  induction l with
  | nil => intro st p _; rfl
  | cons pc rest ih =>
    intro st p hp
    simp only [List.map_cons, List.mem_cons, not_or] at hp
    have : (applyWrites (pc :: rest) st) = applyWrites rest (writeEvt st pc.1 pc.2) := rfl
    rw [this, ih _ p hp.2, writeEvt_files, if_neg hp.1]

theorem applyWrites_files_mem (l : List (String × String)) :
    ∀ (st : RunState) (p c : String), (l.map Prod.fst).Nodup → (p, c) ∈ l →
      (applyWrites l st).files p = some c := by
  induction l with
  | nil => intro st p c _ h; simp at h
  | cons pc rest ih =>
    intro st p c hund hmem
    simp only [List.map_cons, List.nodup_cons] at hund
    have hstep : (applyWrites (pc :: rest) st) = applyWrites rest (writeEvt st pc.1 pc.2) := rfl
    rcases List.mem_cons.mp hmem with heq | htail
    · subst heq
      rw [hstep, applyWrites_files_notin rest _ p (by simpa using hund.1)]
      simp [writeEvt_files]
    · exact hstep ▸ ih _ p c hund.2 htail

theorem applyWrites_shouldUpdate (l : List (String × String)) :
    ∀ st : RunState, (applyWrites l st).shouldUpdate = st.shouldUpdate := by
  induction l with
  | nil => intro st; rfl
  | cons pc rest ih =>
    intro st
    have : (applyWrites (pc :: rest) st) = applyWrites rest (writeEvt st pc.1 pc.2) := rfl
    rw [this, ih]; rfl

theorem applyWrites_events (l : List (String × String)) :
    ∀ st : RunState, (applyWrites l st).events =
      st.events ++ l.map (fun pc => Event.write pc.1 pc.2) := by
  induction l with
  | nil => intro st; simp [applyWrites]
  | cons pc rest ih =>
    intro st
    have : (applyWrites (pc :: rest) st) = applyWrites rest (writeEvt st pc.1 pc.2) := rfl
    rw [this, ih]
    simp [writeEvt]

/-! Lemmas about `mapExcept`. -/

theorem mapExcept_error_of_mem {α β : Type} (f : α → Except String β) :
    ∀ (l : List α) (a : α) (e : String), a ∈ l → f a = .error e →
      ∃ e', mapExcept f l = .error e' := by
  intro l
  induction l with
  | nil => intro a e h; simp at h
  | cons hd tl ih =>
    intro a e hmem hfa
    rcases List.mem_cons.mp hmem with heq | htail
    · subst heq
      exact ⟨e, by simp [mapExcept, hfa]⟩
    · match hhd : f hd with
      | .error e'' => exact ⟨e'', by simp [mapExcept, hhd]⟩
      | .ok b =>
        obtain ⟨e', he'⟩ := ih a e htail hfa
        exact ⟨e', by simp [mapExcept, hhd, he']⟩

/-! Branch and frame lemmas for one loop iteration. -/

theorem processContract_missing (outdir : String) (st : RunState) (c : Descriptor)
    (h : st.files (artifactPath outdir (sanitizeName c.name)) = none) :
    processContract outdir st c =
      .ok (generateBlock outdir { st with shouldUpdate := true } c) := by
  simp [processContract, h]

theorem processContract_skip (outdir : String) (st : RunState) (c : Descriptor)
    (cached : String) (ex : JsonV)
    (h1 : st.files (artifactPath outdir (sanitizeName c.name)) = some cached)
    (h2 : jsParse cached = some ex)
    (h3 : JsonV.getField ex "address" = some (JsonV.str c.address)) :
    processContract outdir st c =
      .ok { st with events := st.events ++ [Event.infoLatest c.name] } := by
  simp [processContract, h1, h2, h3]

theorem processContract_warn (outdir : String) (st : RunState) (c : Descriptor)
    (cached : String) (ex : JsonV)
    (h1 : st.files (artifactPath outdir (sanitizeName c.name)) = some cached)
    (h2 : jsParse cached = some ex)
    (h3 : JsonV.getField ex "address" ≠ some (JsonV.str c.address))
    (h4 : st.shouldUpdate = false) :
    processContract outdir st c =
      .ok { st with events := st.events ++ [Event.warnNewer c.name] } := by
  simp [processContract, h1, h2, h3, h4]

theorem processContract_staleUpdate (outdir : String) (st : RunState) (c : Descriptor)
    (cached : String) (ex : JsonV)
    (h1 : st.files (artifactPath outdir (sanitizeName c.name)) = some cached)
    (h2 : jsParse cached = some ex)
    (h3 : JsonV.getField ex "address" ≠ some (JsonV.str c.address))
    (h4 : st.shouldUpdate = true) :
    processContract outdir st c = .ok (generateBlock outdir st c) := by
  simp [processContract, h1, h2, h3, h4]

/-- The paths a contract's write block touches. -/
def writePaths (outdir : String) (c : Descriptor) : List String :=
  (contractWrites outdir c).map Prod.fst

theorem generateBlock_shouldUpdate (outdir : String) (st : RunState) (c : Descriptor) :
    (generateBlock outdir st c).shouldUpdate = st.shouldUpdate := by
  unfold generateBlock
  by_cases h : st.shouldUpdate <;> simp [h, applyWrites_shouldUpdate]

theorem generateBlock_files_notin (outdir : String) (st : RunState) (c : Descriptor)
    (p : String) (hp : p ∉ writePaths outdir c) :
    (generateBlock outdir st c).files p = st.files p := by
  unfold generateBlock
  by_cases h : st.shouldUpdate <;>
    simp [h, applyWrites_files_notin _ _ _ hp]

theorem generateBlock_files_mem (outdir : String) (st : RunState) (c : Descriptor)
    (p ct : String) (hnd : (writePaths outdir c).Nodup)
    (hmem : (p, ct) ∈ contractWrites outdir c) (hflag : st.shouldUpdate = true) :
    (generateBlock outdir st c).files p = some ct := by
  unfold generateBlock
  simp [hflag, applyWrites_files_mem _ _ _ _ hnd hmem]

theorem generateBlock_events (outdir : String) (st : RunState) (c : Descriptor)
    (hflag : st.shouldUpdate = true) :
    (generateBlock outdir st c).events =
      st.events ++ [Event.ensureDir (solDir outdir (sanitizeName c.name)),
        Event.infoGenerating c.name] ++
        (contractWrites outdir c).map (fun pc => Event.write pc.1 pc.2) := by
  unfold generateBlock
  simp [hflag, applyWrites_events]

theorem processContract_parseError (outdir : String) (st : RunState) (c : Descriptor)
    (cached : String)
    (h1 : st.files (artifactPath outdir (sanitizeName c.name)) = some cached)
    (h2 : jsParse cached = none) :
    processContract outdir st c =
      .error ("Error: SyntaxError: JSON.parse at " ++
        artifactPath outdir (sanitizeName c.name)) := by
  simp [processContract, h1, h2]

/-- Exhaustive case split for a successful loop iteration: the four
reachable outcomes. -/
theorem processContract_ok_cases (outdir : String) (st st' : RunState)
    (c : Descriptor) (h : processContract outdir st c = .ok st') :
    st' = generateBlock outdir { st with shouldUpdate := true } c ∨
    st' = generateBlock outdir st c ∧ st.shouldUpdate = true ∨
    st' = { st with events := st.events ++ [Event.warnNewer c.name] } ∧
      st.shouldUpdate = false ∨
    st' = { st with events := st.events ++ [Event.infoLatest c.name] } := by
  cases hfa : st.files (artifactPath outdir (sanitizeName c.name)) with
  | none =>
    rw [processContract_missing outdir st c hfa] at h
    exact Or.inl (by injection h with h; exact h.symm)
  | some cached =>
    cases hpj : jsParse cached with
    | none =>
      rw [processContract_parseError outdir st c cached hfa hpj] at h
      exact absurd h (by simp)
    | some ex =>
      by_cases hne : JsonV.getField ex "address" ≠ some (JsonV.str c.address)
      · by_cases hfl : st.shouldUpdate = false
        · rw [processContract_warn outdir st c cached ex hfa hpj hne hfl] at h
          exact Or.inr (Or.inr (Or.inl ⟨by injection h with h; exact h.symm, hfl⟩))
        · have hfl' : st.shouldUpdate = true := by
            cases hb : st.shouldUpdate
            · exact absurd hb hfl
            · rfl
          rw [processContract_staleUpdate outdir st c cached ex hfa hpj hne hfl'] at h
          exact Or.inr (Or.inl ⟨by injection h with h; exact h.symm, hfl'⟩)
      · push_neg at hne
        rw [processContract_skip outdir st c cached ex hfa hpj hne] at h
        exact Or.inr (Or.inr (Or.inr (by injection h with h; exact h.symm)))

theorem processContract_ok_files_notin (outdir : String) (st st' : RunState)
    (c : Descriptor) (h : processContract outdir st c = .ok st')
    (p : String) (hp : p ∉ writePaths outdir c) : st'.files p = st.files p := by
  rcases processContract_ok_cases outdir st st' c h with hc | ⟨hc, _⟩ | ⟨hc, _⟩ | hc <;>
    subst hc
  · exact generateBlock_files_notin outdir _ c p hp
  · exact generateBlock_files_notin outdir _ c p hp
  · rfl
  · rfl

theorem processContract_ok_flag_mono (outdir : String) (st st' : RunState)
    (c : Descriptor) (h : processContract outdir st c = .ok st')
    (hf : st.shouldUpdate = true) : st'.shouldUpdate = true := by
  rcases processContract_ok_cases outdir st st' c h with hc | ⟨hc, _⟩ | ⟨hc, hfl⟩ | hc <;>
    subst hc
  · rw [generateBlock_shouldUpdate]
  · rw [generateBlock_shouldUpdate]; exact hf
  · exact hf
  · exact hf

/-! Generic loop induction principles. -/

theorem mainLoop_preserve (outdir : String) (Q : RunState → Prop) :
    ∀ (ds : List Descriptor) (st st' : RunState),
      (∀ st₁ st₂ c, c ∈ ds → processContract outdir st₁ c = .ok st₂ → Q st₁ → Q st₂) →
      mainLoop outdir st ds = (st', none) → Q st → Q st' := by
  intro ds
  induction ds with
  | nil =>
    intro st st' _ hloop hQ
    simp only [mainLoop, Prod.mk.injEq] at hloop
    rw [← hloop.1]; exact hQ
  | cons c cs ih =>
    intro st st' hstep hloop hQ
    cases hpc : processContract outdir st c with
    | error e => simp only [mainLoop, hpc, Prod.mk.injEq] at hloop; exact absurd hloop.2 (by simp)
    | ok st₁ =>
      simp only [mainLoop, hpc] at hloop
      exact ih st₁ st' (fun a b cc hc => hstep a b cc (List.mem_cons_of_mem _ hc)) hloop
        (hstep st st₁ c (List.mem_cons_self _ _) hpc hQ)

theorem mainLoop_establish (outdir : String) (I E : RunState → Prop) :
    ∀ (ds : List Descriptor) (st st' : RunState) (d : Descriptor),
      (∀ st₁ st₂ c, c ∈ ds → processContract outdir st₁ c = .ok st₂ → I st₁ → I st₂) →
      (∀ st₁ st₂, processContract outdir st₁ d = .ok st₂ → I st₁ → E st₂) →
      (∀ st₁ st₂ c, c ∈ ds → processContract outdir st₁ c = .ok st₂ → E st₁ → E st₂) →
      d ∈ ds → mainLoop outdir st ds = (st', none) → I st → E st' := by
  intro ds
  induction ds with
  | nil => intro st st' d _ _ _ hd; exact absurd hd (by simp)
  | cons c cs ih =>
    intro st st' d h1 h2 h3 hd hloop hI
    cases hpc : processContract outdir st c with
    | error e => simp only [mainLoop, hpc, Prod.mk.injEq] at hloop; exact absurd hloop.2 (by simp)
    | ok st₁ =>
      simp only [mainLoop, hpc] at hloop
      rcases List.mem_cons.mp hd with heq | htail
      · subst heq
        exact mainLoop_preserve outdir E cs st₁ st'
          (fun a b cc hc => h3 a b cc (List.mem_cons_of_mem _ hc)) hloop
          (h2 st st₁ hpc hI)
      · exact ih st₁ st' d
          (fun a b cc hc => h1 a b cc (List.mem_cons_of_mem _ hc)) h2
          (fun a b cc hc => h3 a b cc (List.mem_cons_of_mem _ hc)) htail hloop
          (h1 st st₁ c (List.mem_cons_self _ _) hpc hI)

/-! Generation completeness: the state needed for claim C2 and for
idempotence. -/

/-- Every generated file of descriptor `d` is in place, with its
generated content. -/
def genDone (outdir : String) (d : Descriptor) (fs : String → Option String) : Prop :=
  ∀ pc ∈ contractWrites outdir d, fs pc.1 = some pc.2

/-- Loop invariant for claim C2: either `d`'s artifact has never been
written, or `d`'s generation has completed. -/
def freshOrDone (outdir : String) (d : Descriptor) (st : RunState) : Prop :=
  st.files (artifactPath outdir (sanitizeName d.name)) = none ∨
    genDone outdir d st.files

theorem artifactPath_mem_writePaths (outdir : String) (d : Descriptor) :
    artifactPath outdir (sanitizeName d.name) ∈ writePaths outdir d := by
  simp [writePaths, contractWrites]

theorem processContract_self_establishes (outdir : String) (st st' : RunState)
    (d : Descriptor) (hnd : (writePaths outdir d).Nodup)
    (h : processContract outdir st d = .ok st')
    (hI : freshOrDone outdir d st) : genDone outdir d st'.files := by
  cases hfa : st.files (artifactPath outdir (sanitizeName d.name)) with
  | none =>
    rw [processContract_missing outdir st d hfa] at h
    injection h with h
    subst h
    intro pc hpc
    exact generateBlock_files_mem outdir _ d pc.1 pc.2 hnd hpc rfl
  | some cached =>
    have hG : genDone outdir d st.files := by
      rcases hI with hl | hr
      · rw [hfa] at hl; exact absurd hl (by simp)
      · exact hr
    rcases processContract_ok_cases outdir st st' d h with hc | ⟨hc, hfl⟩ | ⟨hc, _⟩ | hc <;>
      subst hc
    · intro pc hpc
      exact generateBlock_files_mem outdir _ d pc.1 pc.2 hnd hpc rfl
    · intro pc hpc
      exact generateBlock_files_mem outdir _ d pc.1 pc.2 hnd hpc hfl
    · exact hG
    · exact hG

theorem genDone_frame (outdir : String) (st st' : RunState) (d c : Descriptor)
    (hdisj : ∀ q ∈ writePaths outdir c, q ∉ writePaths outdir d)
    (h : processContract outdir st c = .ok st')
    (hG : genDone outdir d st.files) : genDone outdir d st'.files := by
  intro pc hpc
  have hmemp : pc.1 ∈ writePaths outdir d := List.mem_map_of_mem _ hpc
  have hnot : pc.1 ∉ writePaths outdir c := fun hin => hdisj pc.1 hin hmemp
  rw [processContract_ok_files_notin outdir st st' c h pc.1 hnot]
  exact hG pc hpc

theorem freshOrDone_frame (outdir : String) (st st' : RunState) (d c : Descriptor)
    (hdisj : ∀ q ∈ writePaths outdir c, q ∉ writePaths outdir d)
    (h : processContract outdir st c = .ok st')
    (hI : freshOrDone outdir d st) : freshOrDone outdir d st' := by
  rcases hI with hl | hr
  · left
    have hnot : artifactPath outdir (sanitizeName d.name) ∉ writePaths outdir c :=
      fun hin => hdisj _ hin (artifactPath_mem_writePaths outdir d)
    rw [processContract_ok_files_notin outdir st st' c h _ hnot]
    exact hl
  · right
    exact genDone_frame outdir st st' d c hdisj h hr

theorem mapExcept_ok_mem {α β : Type} (f : α → Except String β) :
    ∀ (l : List α) (bs : List β) (a : α), mapExcept f l = .ok bs → a ∈ l →
      ∃ b, b ∈ bs ∧ f a = .ok b := by
  intro l
  induction l with
  | nil => intro bs a _ h; simp at h
  | cons hd tl ih =>
    intro bs a hok hmem
    match hhd : f hd with
    | .error e => rw [mapExcept, hhd] at hok; exact absurd hok (by simp)
    | .ok b0 =>
      match htl : mapExcept f tl with
      | .error e => rw [mapExcept, hhd, htl] at hok; exact absurd hok (by simp)
      | .ok bs0 =>
        rw [mapExcept, hhd, htl] at hok
        injection hok with hok
        subst hok
        rcases List.mem_cons.mp hmem with heq | htail
        · exact ⟨b0, by simp, heq ▸ hhd⟩
        · obtain ⟨b, hb, hfb⟩ := ih bs0 a htl htail
          exact ⟨b, by simp [hb], hfb⟩

/-! Concrete fixtures used to witness the claim theorems. -/

/-- A one-contract registry item named Foo (the spec's end-to-end
scenario). -/
def fooItem : RegItem :=
  { name := "Foo", symbol := "FOO",
    contracts := [ { inserted_at := "2023-01-01T00:00:00Z",
                     address_hash := "0xabc", ctype := "contract",
                     ABIUrl := "http://x/abi" } ] }

/-- Registry response containing only `fooItem`. -/
def fooRegistry : RegistryResponse := { success := true, data := [fooItem] }

/-- The descriptor `getContracts` builds from `fooItem` when the ABI
endpoint returns an empty ABI array. -/
def fooDesc : Descriptor :=
  { date := "2023-01-01T00:00:00Z", name := "Foo", symbol := "FOO",
    address := "0xabc", abi := .arr [] }

/-- ABI endpoint stub: every ABI fetch succeeds with the embedded JSON
string of an empty array. -/
def emptyAbiFetch : String → Except String String := fun _ => .ok "[]"

/-- The empty output directory. -/
def emptyFs : String → Option String := fun _ => none

/-- The serialized artifact the tool would write for `fooDesc`. -/
def fooCached : String :=
  contractInfo "2023-01-01T00:00:00Z" "0xabc" "Foo" (.arr [])

/-- The JSON value `fooCached` parses back to. -/
def fooArtifactJson : JsonV :=
  .obj [("date", .str "2023-01-01T00:00:00Z"), ("address", .str "0xabc"),
        ("contractName", .str "Foo"), ("abi", .arr [])]

/-- A filesystem holding only Foo's cached artifact. -/
def fooCachedFs : String → Option String :=
  fun p => if p = artifactPath "o" "Foo" then some fooCached else none

/-- A mid-run state over `fooCachedFs` without the update flag. -/
def fooCachedSt : RunState :=
  { files := fooCachedFs, shouldUpdate := false, events := [] }

/-! Error-propagation lemmas for `getContracts`. -/

theorem runScript_getContracts_error (update : Bool) (outdir : String) (idx : Int)
    (registry : Except String RegistryResponse)
    (abiFetch : String → Except String String) (fs0 : String → Option String)
    (e : String) (h : getContracts idx registry abiFetch = .error e) :
    runScript update outdir idx registry abiFetch fs0 =
      ({ files := fs0, shouldUpdate := update, events := [Event.ensureDir outdir] },
        some e) := by
  simp [runScript, h]

theorem getContracts_error_of_abi_failure (idx : Int)
    (registry : Except String RegistryResponse)
    (abiFetch : String → Except String String)
    (reg : RegistryResponse) (item : RegItem) (rc : RegContract)
    (h1 : registry = .ok reg) (h2 : reg.success = true) (h3 : item ∈ reg.data)
    (h4 : listGetInt item.contracts idx = some rc)
    (h5 : (∃ e, abiFetch rc.ABIUrl = .error e) ∨
          (∃ s, abiFetch rc.ABIUrl = .ok s ∧ jsParse s = none)) :
    ∃ e', getContracts idx registry abiFetch = .error e' := by
  subst h1
  simp only [getContracts, h2, if_true]
  cases hm1 : mapExcept (regItemToPre idx) reg.data with
  | error e => exact ⟨e, by simp⟩
  | ok pres =>
    obtain ⟨p, hp, hokp⟩ := mapExcept_ok_mem _ reg.data pres item hm1 h3
    rw [regItemToPre, h4] at hokp
    injection hokp with hokp
    have habi : p.ABIUrl = rc.ABIUrl := by rw [← hokp]
    have hfail : ∃ e₀, fetchAbi abiFetch p = .error e₀ := by
      rcases h5 with ⟨e, he⟩ | ⟨s, hs, hps⟩
      · exact ⟨"Error: " ++ e, by simp only [fetchAbi, habi, he]⟩
      · exact ⟨"Error: SyntaxError: JSON.parse", by simp only [fetchAbi, habi, hs, hps]⟩
    obtain ⟨e₀, he₀⟩ := hfail
    obtain ⟨e', he'⟩ := mapExcept_error_of_mem _ pres p e₀ hp he₀
    exact ⟨e', by simpa using he'⟩

theorem getContracts_error_of_bad_index (idx : Int)
    (registry : Except String RegistryResponse)
    (abiFetch : String → Except String String)
    (reg : RegistryResponse) (item : RegItem)
    (h1 : registry = .ok reg) (h2 : reg.success = true) (h3 : item ∈ reg.data)
    (h4 : listGetInt item.contracts idx = none) :
    ∃ e', getContracts idx registry abiFetch = .error e' := by
  subst h1
  simp only [getContracts, h2, if_true]
  have hfail : regItemToPre idx item =
      .error "Error: TypeError: cannot read properties of undefined" := by
    simp only [regItemToPre, h4]
  obtain ⟨e', he'⟩ := mapExcept_error_of_mem _ reg.data item _ h3 hfail
  exact ⟨e', by simp [he']⟩

/-- Registry item A: its artifact is absent from the cache fixture. -/
def aItem : RegItem :=
  { name := "A", symbol := "A",
    contracts := [ { inserted_at := "2023-02-02T00:00:00Z", address_hash := "0xa1",
                     ctype := "contract", ABIUrl := "uA" } ] }

/-- Registry item B: remote address 0xb2, while the cache fixture holds
address 0xb1. -/
def bItem : RegItem :=
  { name := "B", symbol := "B",
    contracts := [ { inserted_at := "2023-02-03T00:00:00Z", address_hash := "0xb2",
                     ctype := "contract", ABIUrl := "uB" } ] }

/-- Registry with A (uncached) before B (cached but stale). -/
def abRegistry : RegistryResponse := { success := true, data := [aItem, bItem] }

/-- B's previously generated artifact, recording the old address 0xb1. -/
def bCachedOld : String := contractInfo "2023-01-01T00:00:00Z" "0xb1" "B" (.arr [])

/-- Cache fixture: only B's (stale) artifact exists. -/
def abFs : String → Option String :=
  fun p => if p = artifactPath "o" "B" then some bCachedOld else none

/-- Registry with a single contract whose name contains a space. -/
def pkpItem : RegItem :=
  { name := "PKP Helper", symbol := "PKPH",
    contracts := [ { inserted_at := "2023-03-03T00:00:00Z", address_hash := "0xp",
                     ctype := "contract", ABIUrl := "uP" } ] }

/-- Registry response containing only `pkpItem`. -/
def pkpRegistry : RegistryResponse := { success := true, data := [pkpItem] }

/-- Whitespace test on one character (space, tab, newline, carriage
return). -/
def isWsChar (c : Char) : Bool := c = ' ' || c = '\t' || c = '\n' || c = '\r'

/-- Whether a string contains any whitespace character. -/
def hasWs (s : String) : Bool := s.data.any isWsChar

/-- Whether a string contains whitespace other than a plain space. -/
def hasNonSpaceWs (s : String) : Bool :=
  s.data.any (fun c => c = '\t' || c = '\n' || c = '\r')

/-- The number of space characters in a string. -/
def countSpaces (s : String) : Nat := (s.data.filter (fun c => c = ' ')).length

theorem replaceFirstSpace_no_ws :
    ∀ l : List Char, (l.filter (fun c => c = ' ')).length ≤ 1 →
      (∀ c ∈ l, ¬(c = '\t' ∨ c = '\n' ∨ c = '\r')) →
      ∀ c ∈ replaceFirstSpace l, isWsChar c = false := by
  intro l
  induction l with
  | nil => intro _ _ c hc; exact absurd hc (by simp [replaceFirstSpace])
  | cons hd tl ih =>
    intro h1 h2 c hc
    by_cases hhd : hd = ' '
    · rw [replaceFirstSpace, if_pos hhd] at hc
      have hcount : (tl.filter (fun c => c = ' ')).length = 0 := by
        rw [List.filter_cons_of_pos (by simp [hhd])] at h1
        simpa using h1
      have hnosp : ∀ x ∈ tl, ¬(x = ' ') := by
        intro x hx hxs
        have : (tl.filter (fun c => c = ' ')).length ≠ 0 := by
          have : x ∈ tl.filter (fun c => c = ' ') :=
            List.mem_filter.mpr ⟨hx, by simp [hxs]⟩
          intro hz
          rw [List.length_eq_zero] at hz
          rw [hz] at this
          exact absurd this (by simp)
        exact this hcount
      have hrest := h2 c (List.mem_cons_of_mem _ hc)
      have hs := hnosp c hc
      simp only [isWsChar, Bool.or_eq_false_iff, decide_eq_false_iff_not]
      push_neg at hrest
      exact ⟨⟨⟨hs, hrest.1⟩, hrest.2.1⟩, hrest.2.2⟩
    · rw [replaceFirstSpace, if_neg hhd] at hc
      rcases List.mem_cons.mp hc with heq | htail
      · subst heq
        have hrest := h2 c (List.mem_cons_self _ _)
        push_neg at hrest
        simp only [isWsChar, Bool.or_eq_false_iff, decide_eq_false_iff_not]
        exact ⟨⟨⟨hhd, hrest.1⟩, hrest.2.1⟩, hrest.2.2⟩
      · have h1' : (tl.filter (fun c => c = ' ')).length ≤ 1 := by
          rw [List.filter_cons_of_neg (by simp [hhd])] at h1
          exact h1
        exact ih h1' (fun x hx => h2 x (List.mem_cons_of_mem _ hx)) c htail

/-- C2: for every descriptor with no cached artifact at
`outdir/_name.sol/_name.json`, a completed run generates all of that
contract's files (JSON artifact, data modules, typed bindings, wrapper
modules, per-contract index) regardless of the update flag.  The
side hypotheses say the run did not abort and that the descriptor's write
paths are distinct and not claimed by another descriptor or by the
aggregate index file. -/
theorem claim2_missing_artifact_generates
    (update : Bool) (outdir : String) (idx : Int)
    (registry : Except String RegistryResponse)
    (abiFetch : String → Except String String)
    (fs0 : String → Option String) (data : List Descriptor) (d : Descriptor)
    (h_get : getContracts idx registry abiFetch = .ok data)
    (h_mem : d ∈ data)
    (h_fresh : fs0 (artifactPath outdir (sanitizeName d.name)) = none)
    (h_nd : (writePaths outdir d).Nodup)
    (h_sep : ∀ d' ∈ data, d' ≠ d → ∀ q ∈ writePaths outdir d', q ∉ writePaths outdir d)
    (h_types : typesPath outdir ∉ writePaths outdir d)
    (h_done : (runScript update outdir idx registry abiFetch fs0).2 = none) :
    genDone outdir d (runScript update outdir idx registry abiFetch fs0).1.files := by
  cases hml : mainLoop outdir
      { files := fs0, shouldUpdate := update, events := [Event.ensureDir outdir] } data with
  | mk st1 oe =>
    cases oe with
    | some e =>
      exfalso
      simp only [runScript, h_get, hml] at h_done
      exact absurd h_done (by simp)
    | none =>
      have hG : genDone outdir d st1.files := by
        refine mainLoop_establish outdir (freshOrDone outdir d)
          (fun st => genDone outdir d st.files) data _ st1 d ?_ ?_ ?_ h_mem hml ?_
        · intro st₁ st₂ c hc hok hI
          by_cases hcd : c = d
          · subst hcd
            exact Or.inr (processContract_self_establishes outdir st₁ st₂ c h_nd hok hI)
          · exact freshOrDone_frame outdir st₁ st₂ d c (h_sep c hc hcd) hok hI
        · intro st₁ st₂ hok hI
          exact processContract_self_establishes outdir st₁ st₂ d h_nd hok hI
        · intro st₁ st₂ c hc hok hE
          by_cases hcd : c = d
          · subst hcd
            exact processContract_self_establishes outdir st₁ st₂ c h_nd hok (Or.inr hE)
          · exact genDone_frame outdir st₁ st₂ d c (h_sep c hc hcd) hok hE
        · exact Or.inl h_fresh
      intro pc hpc
      have hne : pc.1 ≠ typesPath outdir :=
        fun he => h_types (he ▸ List.mem_map_of_mem _ hpc)
      simp only [runScript, h_get, hml]
      by_cases hu : st1.shouldUpdate = true
      · simp only [hu, if_true]
        rw [writeEvt_files, if_neg hne]
        exact hG pc hpc
      · simp only [hu, if_false]
        exact hG pc hpc

/-- Witness for C2 at a concrete input: the empty output directory, a
one-contract registry, no update flag. -/
theorem claim2_witness :
    genDone "o" fooDesc
      (runScript false "o" 0 (.ok fooRegistry) emptyAbiFetch emptyFs).1.files :=
  claim2_missing_artifact_generates false "o" 0 (.ok fooRegistry) emptyAbiFetch
    emptyFs [fooDesc] fooDesc rfl (by decide) rfl (by decide)
    (by decide) (by decide) (by decide)

/-! Idempotence infrastructure: after an update run, every descriptor's
cached artifact records its remote address, so a second identical run
skips every contract. -/

/-- The cached artifact for `d` exists and parses back with `d`'s remote
address. -/
def artifactOk (outdir : String) (d : Descriptor) (fs : String → Option String) : Prop :=
  ∃ s ex, fs (artifactPath outdir (sanitizeName d.name)) = some s ∧
    jsParse s = some ex ∧
    JsonV.getField ex "address" = some (JsonV.str d.address)

/-- The artifact text the tool writes for `d` parses back recording `d`'s
address (true of every well-formed descriptor; assumed per descriptor
because the embedded parser is partial on exotic strings). -/
def infoRoundTrips (d : Descriptor) : Prop :=
  ∃ ex, jsParse (contractInfo d.date d.address (sanitizeName d.name) d.abi) = some ex ∧
    JsonV.getField ex "address" = some (JsonV.str d.address)

theorem artifact_pair_mem (outdir : String) (d : Descriptor) :
    (artifactPath outdir (sanitizeName d.name),
      contractInfo d.date d.address (sanitizeName d.name) d.abi) ∈
      contractWrites outdir d := by
  simp [contractWrites]

theorem processContract_establishes_artifactOk (outdir : String)
    (st st' : RunState) (d : Descriptor)
    (hnd : (writePaths outdir d).Nodup) (hrt : infoRoundTrips d)
    (hok : processContract outdir st d = .ok st')
    (hfl : st.shouldUpdate = true) : artifactOk outdir d st'.files := by
  obtain ⟨ex0, hpr, hfe⟩ := hrt
  cases hfa : st.files (artifactPath outdir (sanitizeName d.name)) with
  | none =>
    rw [processContract_missing outdir st d hfa] at hok
    injection hok with hok
    subst hok
    refine ⟨contractInfo d.date d.address (sanitizeName d.name) d.abi, ex0, ?_, hpr, hfe⟩
    exact generateBlock_files_mem outdir _ d _ _ hnd (artifact_pair_mem outdir d) rfl
  | some cached =>
    cases hpj : jsParse cached with
    | none =>
      rw [processContract_parseError outdir st d cached hfa hpj] at hok
      exact absurd hok (by simp)
    | some ex =>
      by_cases hne : JsonV.getField ex "address" ≠ some (JsonV.str d.address)
      · rw [processContract_staleUpdate outdir st d cached ex hfa hpj hne hfl] at hok
        injection hok with hok
        subst hok
        refine ⟨contractInfo d.date d.address (sanitizeName d.name) d.abi, ex0, ?_, hpr, hfe⟩
        exact generateBlock_files_mem outdir _ d _ _ hnd (artifact_pair_mem outdir d) hfl
      · push_neg at hne
        rw [processContract_skip outdir st d cached ex hfa hpj hne] at hok
        injection hok with hok
        subst hok
        exact ⟨cached, ex, hfa, hpj, hne⟩

theorem artifactOk_frame (outdir : String) (st st' : RunState) (d c : Descriptor)
    (hdisj : ∀ q ∈ writePaths outdir c, q ∉ writePaths outdir d)
    (hok : processContract outdir st c = .ok st')
    (hA : artifactOk outdir d st.files) : artifactOk outdir d st'.files := by
  obtain ⟨s, ex, hfs, hpj, hfe⟩ := hA
  have hnot : artifactPath outdir (sanitizeName d.name) ∉ writePaths outdir c :=
    fun hin => hdisj _ hin (artifactPath_mem_writePaths outdir d)
  exact ⟨s, ex, by
    rw [processContract_ok_files_notin outdir st st' c hok _ hnot]; exact hfs, hpj, hfe⟩

theorem mainLoop_all_skip (outdir : String) :
    ∀ (ds : List Descriptor) (st : RunState),
      (∀ d ∈ ds, artifactOk outdir d st.files) →
      (mainLoop outdir st ds).2 = none ∧
      (mainLoop outdir st ds).1.files = st.files ∧
      (mainLoop outdir st ds).1.shouldUpdate = st.shouldUpdate := by
  intro ds
  induction ds with
  | nil => intro st _; exact ⟨rfl, rfl, rfl⟩
  | cons c cs ih =>
    intro st hall
    obtain ⟨s, ex, hfs, hpj, hfe⟩ := hall c (List.mem_cons_self _ _)
    have hskip := processContract_skip outdir st c s ex hfs hpj hfe
    have hstep : mainLoop outdir st (c :: cs) =
        mainLoop outdir { st with events := st.events ++ [Event.infoLatest c.name] } cs := by
      simp only [mainLoop, hskip]
    rw [hstep]
    exact ih _ (fun d hd => hall d (List.mem_cons_of_mem _ hd))

/-- Invariant tying the mutable `shouldUpdate` flag to the observable
trace: the flag is set exactly when the run started with the update flag
or some contract has triggered generation; and the aggregate index has
not been written during the loop. -/
def typesInv (update : Bool) (outdir : String) (st : RunState) : Prop :=
  (st.shouldUpdate = true ↔
    (update = true ∨ ∃ nm, Event.infoGenerating nm ∈ st.events)) ∧
  (∀ ct, Event.write (typesPath outdir) ct ∉ st.events)

theorem typesInv_step (update : Bool) (outdir : String) (st st' : RunState)
    (c : Descriptor) (hnt : typesPath outdir ∉ writePaths outdir c)
    (hok : processContract outdir st c = .ok st')
    (hP : typesInv update outdir st) : typesInv update outdir st' := by
  obtain ⟨hP1, hP2⟩ := hP
  have hgen : ∀ st₀ : RunState, st₀.files = st.files → st₀.events = st.events →
      st₀.shouldUpdate = true → typesInv update outdir (generateBlock outdir st₀ c) := by
    intro st₀ _ hev₀ hfl₀
    have hev := generateBlock_events outdir st₀ c hfl₀
    constructor
    · rw [generateBlock_shouldUpdate, hfl₀]
      constructor
      · intro _
        right
        exact ⟨c.name, by rw [hev]; simp⟩
      · intro _; rfl
    · intro ct hmem
      rw [hev, hev₀] at hmem
      rcases List.mem_append.mp hmem with hmem' | hmem''
      · rcases List.mem_append.mp hmem' with h | h
        · exact hP2 ct h
        · simp at h
      · obtain ⟨pc, hpc, heq⟩ := List.mem_map.mp hmem''
        injection heq with heq1 _
        exact hnt (heq1 ▸ List.mem_map_of_mem _ hpc)
  have hkeep : ∀ e : Event, (∀ nm, e ≠ Event.infoGenerating nm) →
      (∀ ct, e ≠ Event.write (typesPath outdir) ct) →
      typesInv update outdir { st with events := st.events ++ [e] } := by
    intro e hng hnw
    constructor
    · constructor
      · intro hfl
        rcases hP1.mp hfl with h | ⟨nm, hnm⟩
        · exact Or.inl h
        · exact Or.inr ⟨nm, List.mem_append_left _ hnm⟩
      · intro hr
        apply hP1.mpr
        rcases hr with h | ⟨nm, hnm⟩
        · exact Or.inl h
        · rcases List.mem_append.mp hnm with h' | h'
          · exact Or.inr ⟨nm, h'⟩
          · rw [List.mem_singleton] at h'
            exact absurd h'.symm (hng nm)
    · intro ct hmem
      rcases List.mem_append.mp hmem with h' | h'
      · exact hP2 ct h'
      · rw [List.mem_singleton] at h'
        exact absurd h'.symm (hnw ct)
  rcases processContract_ok_cases outdir st st' c hok with hc | ⟨hc, hfl⟩ | ⟨hc, _⟩ | hc <;>
    subst hc
  · exact hgen { st with shouldUpdate := true } rfl rfl rfl
  · exact hgen st rfl rfl hfl
  · exact hkeep (Event.warnNewer c.name) (by intro nm h; cases h) (by intro ct h; cases h)
  · exact hkeep (Event.infoLatest c.name) (by intro nm h; cases h) (by intro ct h; cases h)

/-- C3 counterexample: with the update flag set and a registry whose only
contract is already cached at the same address, the run generates nothing
(the trace holds no generating message and no contract write) yet still
writes `types.ts` — refuting "a run in which every descriptor was skipped
writes no types.ts, even when the --update flag was passed". -/
theorem claim3_counterexample :
    (runScript true "o" 0 (.ok fooRegistry) emptyAbiFetch fooCachedFs).1.events =
      [Event.ensureDir "o", Event.infoLatest "Foo",
       Event.write "o/types.ts" "export * from \"./Foo.sol/Foo.ts\";"] ∧
    (runScript true "o" 0 (.ok fooRegistry) emptyAbiFetch fooCachedFs).2 = none := by
  decide

/-- C3 amended: in a completed run, the aggregate `types.ts` is written
if and only if the update flag was passed on the command line OR at least
one contract triggered generation; in particular a run with `--update`
writes `types.ts` even when every descriptor was skipped. -/
theorem claim3_types_written_iff_update_or_generation
    (update : Bool) (outdir : String) (idx : Int)
    (registry : Except String RegistryResponse)
    (abiFetch : String → Except String String)
    (fs0 : String → Option String) (data : List Descriptor)
    (h_get : getContracts idx registry abiFetch = .ok data)
    (h_types : ∀ d ∈ data, typesPath outdir ∉ writePaths outdir d)
    (h_done : (runScript update outdir idx registry abiFetch fs0).2 = none) :
    (∃ ct, Event.write (typesPath outdir) ct ∈
        (runScript update outdir idx registry abiFetch fs0).1.events) ↔
    (update = true ∨ ∃ nm, Event.infoGenerating nm ∈
        (runScript update outdir idx registry abiFetch fs0).1.events) := by
  cases hml : mainLoop outdir
      { files := fs0, shouldUpdate := update, events := [Event.ensureDir outdir] } data with
  | mk st1 oe =>
    cases oe with
    | some e =>
      exfalso
      simp only [runScript, h_get, hml] at h_done
      exact absurd h_done (by simp)
    | none =>
      have hInv : typesInv update outdir st1 := by
        refine mainLoop_preserve outdir (typesInv update outdir) data _ st1 ?_ hml ?_
        · intro st₁ st₂ c hc hok hP
          exact typesInv_step update outdir st₁ st₂ c (h_types c hc) hok hP
        · constructor
          · simp
          · intro ct hct
            simp at hct
      simp only [runScript, h_get, hml]
      by_cases hu : st1.shouldUpdate = true
      · simp only [hu, if_true]
        constructor
        · intro _
          rcases hInv.1.mp hu with h | ⟨nm, hnm⟩
          · exact Or.inl h
          · exact Or.inr ⟨nm, by simp only [writeEvt]; exact List.mem_append_left _ hnm⟩
        · intro _
          exact ⟨typesFileContent data, by simp [writeEvt]⟩
      · simp only [hu, if_false]
        constructor
        · rintro ⟨ct, hct⟩
          exact absurd hct (hInv.2 ct)
        · intro hr
          have hgen : ∃ nm, Event.infoGenerating nm ∈ st1.events := by
            rcases hr with h | h
            · exact absurd (hInv.1.mpr (Or.inl h)) hu
            · exact h
          exact absurd (hInv.1.mpr (Or.inr hgen)) hu

/-- Witness for C3's amended theorem: the all-skip run with the update
flag set writes types.ts and generated nothing. -/
theorem claim3_witness :
    (∃ ct, Event.write (typesPath "o") ct ∈
        (runScript true "o" 0 (.ok fooRegistry) emptyAbiFetch fooCachedFs).1.events) ↔
    (true = true ∨ ∃ nm, Event.infoGenerating nm ∈
        (runScript true "o" 0 (.ok fooRegistry) emptyAbiFetch fooCachedFs).1.events) :=
  claim3_types_written_iff_update_or_generation true "o" 0 (.ok fooRegistry)
    emptyAbiFetch fooCachedFs [fooDesc] rfl (by decide) (by decide)

/-- C5 counterexample: sanitization removes only the FIRST space, so a
name with more than one space keeps whitespace, refuting the claim's
"same whitespace-free guarantee ... for names containing more than one
space". -/
theorem claim5_counterexample :
    sanitizeName "A B C" = "AB C" ∧ hasWs (sanitizeName "A B C") = true ∧
    sanitizeName "A B C" ≠ "ABC" := by
  decide

/-- C5 amended: the sanitizer removes only the first space, so the
whitespace-free guarantee holds for names with at most one space (and no
tab, newline or carriage return); in particular "PKP Helper" yields the
subdirectory PKPHelper.sol and the exported symbol PKPHelperData. -/
theorem claim5_sanitize_single_space (name : String)
    (h1 : countSpaces name ≤ 1) (h2 : hasNonSpaceWs name = false) :
    hasWs (sanitizeName name) = false ∧
    sanitizeName "PKP Helper" = "PKPHelper" ∧
    solDir "lit-contracts" (sanitizeName "PKP Helper") = "lit-contracts/PKPHelper.sol" ∧
    dataModule (sanitizeName "PKP Helper") "INFO" = "export const PKPHelperData = INFO" := by
  refine ⟨?_, by decide, by decide, by decide⟩
  have h2' : ∀ c ∈ name.data, ¬(c = '\t' ∨ c = '\n' ∨ c = '\r') := by
    intro c hc
    have hfalse : (c = '\t' || c = '\n' || c = '\r') = false := by
      by_contra hne
      have hany : hasNonSpaceWs name = true := by
        apply List.any_eq_true.mpr
        refine ⟨c, hc, ?_⟩
        revert hne
        cases h : (c = '\t' || c = '\n' || c = '\r') <;> simp
      rw [hany] at h2
      exact absurd h2 (by simp)
    simp only [Bool.or_eq_false_iff, decide_eq_false_iff_not] at hfalse
    push_neg
    exact ⟨hfalse.1.1, hfalse.1.2, hfalse.2⟩
  have key := replaceFirstSpace_no_ws name.data h1 h2'
  apply Bool.eq_false_iff.mpr
  intro htrue
  obtain ⟨c, hc, hcw⟩ := List.any_eq_true.mp htrue
  have hf : isWsChar c = false := key c hc
  rw [hf] at hcw
  exact absurd hcw (by simp)

/-- Witness for C5's amended theorem at the name "PKP Helper". -/
theorem claim5_witness :
    countSpaces "PKP Helper" ≤ 1 ∧ hasNonSpaceWs "PKP Helper" = false ∧
    hasWs (sanitizeName "PKP Helper") = false ∧
    sanitizeName "PKP Helper" = "PKPHelper" :=
  ⟨by decide, by decide,
    (claim5_sanitize_single_space "PKP Helper" (by decide) (by decide)).1,
    (claim5_sanitize_single_space "PKP Helper" (by decide) (by decide)).2.1⟩

/-- C7: idempotence.  With the update flag set and identical remote data,
running the script a second time over the files the first (completed) run
produced completes as well and leaves every file byte-for-byte as the
first run wrote it.  The side hypotheses say each descriptor's artifact
text parses back with its own address (true of all well-formed data), and
that write paths are duplicate-free and disjoint across descriptors and
from the aggregate index. -/
theorem claim7_second_run_identical
    (outdir : String) (idx : Int)
    (registry : Except String RegistryResponse)
    (abiFetch : String → Except String String)
    (fs0 : String → Option String) (data : List Descriptor)
    (h_get : getContracts idx registry abiFetch = .ok data)
    (h_rt : ∀ d ∈ data, infoRoundTrips d)
    (h_nd : ∀ d ∈ data, (writePaths outdir d).Nodup)
    (h_sep : ∀ d ∈ data, ∀ d' ∈ data, d ≠ d' →
      ∀ q ∈ writePaths outdir d', q ∉ writePaths outdir d)
    (h_types : ∀ d ∈ data, typesPath outdir ∉ writePaths outdir d)
    (h_done : (runScript true outdir idx registry abiFetch fs0).2 = none) :
    (runScript true outdir idx registry abiFetch
        (runScript true outdir idx registry abiFetch fs0).1.files).2 = none ∧
    ∀ p, (runScript true outdir idx registry abiFetch
        (runScript true outdir idx registry abiFetch fs0).1.files).1.files p =
      (runScript true outdir idx registry abiFetch fs0).1.files p := by
  cases hml : mainLoop outdir
      { files := fs0, shouldUpdate := true, events := [Event.ensureDir outdir] } data with
  | mk st1 oe =>
    cases oe with
    | some e =>
      exfalso
      simp only [runScript, h_get, hml] at h_done
      exact absurd h_done (by simp)
    | none =>
      have hflag1 : st1.shouldUpdate = true := by
        refine mainLoop_preserve outdir (fun st => st.shouldUpdate = true) data _ st1
          ?_ hml rfl
        intro st₁ st₂ c _ hok hq
        exact processContract_ok_flag_mono outdir st₁ st₂ c hok hq
      have hr1 : runScript true outdir idx registry abiFetch fs0 =
          (writeEvt st1 (typesPath outdir) (typesFileContent data), none) := by
        simp only [runScript, h_get, hml, hflag1, if_true]
      have hok_all : ∀ d ∈ data, artifactOk outdir d st1.files := by
        intro d hd
        have hE := mainLoop_establish outdir (fun st => st.shouldUpdate = true)
          (fun st => st.shouldUpdate = true ∧ artifactOk outdir d st.files) data _ st1 d
          (fun st₁ st₂ c _ hok hq =>
            processContract_ok_flag_mono outdir st₁ st₂ c hok hq)
          (fun st₁ st₂ hok hq =>
            ⟨processContract_ok_flag_mono outdir st₁ st₂ d hok hq,
             processContract_establishes_artifactOk outdir st₁ st₂ d
               (h_nd d hd) (h_rt d hd) hok hq⟩)
          (fun st₁ st₂ c hc hok hE => by
            refine ⟨processContract_ok_flag_mono outdir st₁ st₂ c hok hE.1, ?_⟩
            by_cases hcd : c = d
            · subst hcd
              exact processContract_establishes_artifactOk outdir st₁ st₂ c
                (h_nd c hc) (h_rt c hc) hok hE.1
            · exact artifactOk_frame outdir st₁ st₂ d c
                (h_sep d hd c hc (fun he => hcd he.symm)) hok hE.2)
          hd hml rfl
        exact hE.2
      have hok_all1 : ∀ d ∈ data, artifactOk outdir d
          (writeEvt st1 (typesPath outdir) (typesFileContent data)).files := by
        intro d hd
        obtain ⟨s, ex, hfs, hpj, hfe⟩ := hok_all d hd
        refine ⟨s, ex, ?_, hpj, hfe⟩
        rw [writeEvt_files, if_neg ?_]
        · exact hfs
        · intro he
          exact h_types d hd (he ▸ artifactPath_mem_writePaths outdir d)
      obtain ⟨h2none, h2files, h2flag⟩ := mainLoop_all_skip outdir data
        { files := (writeEvt st1 (typesPath outdir) (typesFileContent data)).files,
          shouldUpdate := true, events := [Event.ensureDir outdir] } hok_all1
      cases hml2 : mainLoop outdir
          { files := (writeEvt st1 (typesPath outdir) (typesFileContent data)).files,
            shouldUpdate := true, events := [Event.ensureDir outdir] } data with
      | mk st2 oe2 =>
        rw [hml2] at h2none h2files h2flag
        simp only at h2none h2files h2flag
        subst h2none
        have hr2 : runScript true outdir idx registry abiFetch
            (writeEvt st1 (typesPath outdir) (typesFileContent data)).files =
            (writeEvt st2 (typesPath outdir) (typesFileContent data), none) := by
          simp only [runScript, h_get, hml2, h2flag, if_true]
        rw [hr1]
        simp only
        rw [hr2]
        constructor
        · rfl
        · intro p
          simp only
          rw [writeEvt_files, writeEvt_files]
          by_cases hp : p = typesPath outdir
          · rw [if_pos hp, if_pos hp]
          · rw [if_neg hp, if_neg hp, h2files, writeEvt_files, if_neg hp]

/-- Witness for C7: a second update run on Foo's freshly generated output
changes nothing. -/
theorem claim7_witness :
    (runScript true "lit-contracts" 0 (.ok fooRegistry) emptyAbiFetch
      (runScript true "lit-contracts" 0 (.ok fooRegistry) emptyAbiFetch
        emptyFs).1.files).2 = none ∧
    (runScript true "lit-contracts" 0 (.ok fooRegistry) emptyAbiFetch
      (runScript true "lit-contracts" 0 (.ok fooRegistry) emptyAbiFetch
        emptyFs).1.files).1.files "lit-contracts/Foo.sol/Foo.json" =
    (runScript true "lit-contracts" 0 (.ok fooRegistry) emptyAbiFetch
      emptyFs).1.files "lit-contracts/Foo.sol/Foo.json" := by
  have hrt : ∀ d ∈ [fooDesc], infoRoundTrips d := by
    intro d hd
    rw [List.mem_singleton] at hd
    subst hd
    exact ⟨fooArtifactJson, by decide, by decide⟩
  have h := claim7_second_run_identical "lit-contracts" 0 (.ok fooRegistry)
    emptyAbiFetch emptyFs [fooDesc] rfl hrt (by decide) (by decide)
    (by decide) (by decide)
  exact ⟨h.1, h.2 "lit-contracts/Foo.sol/Foo.json"⟩

/-- C8: the spec's end-to-end scenario.  One registry contract Foo with
an empty ABI, empty output directory, no flags: the run completes,
`lit-contracts/Foo.sol/Foo.json` holds exactly the canonical artifact
with 2-space indent (and it parses back to the expected JSON value), and
`lit-contracts/types.ts` holds the Foo re-export line. -/
theorem claim8_end_to_end_foo :
    (runScript false "lit-contracts" 0 (.ok fooRegistry) emptyAbiFetch emptyFs).2 = none ∧
    (runScript false "lit-contracts" 0 (.ok fooRegistry) emptyAbiFetch emptyFs).1.files
        "lit-contracts/Foo.sol/Foo.json" =
      some "\x7b\n  \"date\": \"2023-01-01T00:00:00Z\",\n  \"address\": \"0xabc\",\n  \"contractName\": \"Foo\",\n  \"abi\": []\n\x7d" ∧
    jsParse "\x7b\n  \"date\": \"2023-01-01T00:00:00Z\",\n  \"address\": \"0xabc\",\n  \"contractName\": \"Foo\",\n  \"abi\": []\n\x7d" =
      some fooArtifactJson ∧
    (runScript false "lit-contracts" 0 (.ok fooRegistry) emptyAbiFetch emptyFs).1.files
        "lit-contracts/types.ts" = some "export * from \"./Foo.sol/Foo.ts\";" := by
  decide

/-- C4 refutation: the aggregate index is built from the RAW `item.name`,
not the sanitized name.  For "PKP Helper" the artifact is generated under
PKPHelper.sol, but types.ts re-exports "./PKP Helper.sol/PKP Helper.ts"
(a path containing spaces) and the re-exported path holds no file. -/
theorem claim4_types_index_uses_raw_name :
    (runScript false "lit-contracts" 0 (.ok pkpRegistry) emptyAbiFetch emptyFs).1.files
        (typesPath "lit-contracts") =
      some "export * from \"./PKP Helper.sol/PKP Helper.ts\";" ∧
    (runScript false "lit-contracts" 0 (.ok pkpRegistry) emptyAbiFetch emptyFs).1.files
        "lit-contracts/PKPHelper.sol/PKPHelper.json" =
      some (contractInfo "2023-03-03T00:00:00Z" "0xp" "PKPHelper" (.arr [])) ∧
    (runScript false "lit-contracts" 0 (.ok pkpRegistry) emptyAbiFetch emptyFs).1.files
        "lit-contracts/PKP Helper.sol/PKP Helper.ts" = none ∧
    "export * from \"./PKP Helper.sol/PKP Helper.ts\";" ≠
      "export * from \"./PKPHelper.sol/PKPHelper.ts\";" := by
  decide

/-- C1 refutation: processing an uncached contract A sets the global
`shouldUpdate` flag to true, so a later stale contract B is overwritten
WITHOUT the update flag: the run completes, B's artifact now holds the
new address 0xb2 (no longer its cached bytes), and no warning was
emitted. -/
theorem claim1_stale_overwritten_after_missing :
    (runScript false "o" 0 (.ok abRegistry) emptyAbiFetch abFs).2 = none ∧
    (runScript false "o" 0 (.ok abRegistry) emptyAbiFetch abFs).1.files
        (artifactPath "o" "B") =
      some (contractInfo "2023-02-03T00:00:00Z" "0xb2" "B" (.arr [])) ∧
    contractInfo "2023-02-03T00:00:00Z" "0xb2" "B" (.arr []) ≠ bCachedOld ∧
    ((runScript false "o" 0 (.ok abRegistry) emptyAbiFetch abFs).1.events.all
      (fun e => match e with | Event.warnNewer _ => false | _ => true)) = true := by
  decide

/-- C6: a descriptor whose cached artifact exists and records the same
address as the remote descriptor is a pure skip — the loop iteration
succeeds and the resulting state keeps the filesystem and the update flag
byte-for-byte identical, appending only the "latest version" console
message. -/
theorem claim6_same_address_pure_skip (outdir : String) (st : RunState)
    (c : Descriptor) (cached : String) (ex : JsonV)
    (h1 : st.files (artifactPath outdir (sanitizeName c.name)) = some cached)
    (h2 : jsParse cached = some ex)
    (h3 : JsonV.getField ex "address" = some (JsonV.str c.address)) :
    processContract outdir st c =
      .ok { st with events := st.events ++ [Event.infoLatest c.name] } :=
  processContract_skip outdir st c cached ex h1 h2 h3

/-- Witness for C6: Foo's artifact is cached with the same address the
registry reports. -/
theorem claim6_witness :
    processContract "o" fooCachedSt fooDesc =
      .ok { fooCachedSt with
              events := fooCachedSt.events ++ [Event.infoLatest "Foo"] } :=
  claim6_same_address_pure_skip "o" fooCachedSt fooDesc fooCached
    fooArtifactJson (by decide) (by decide) (by decide)

/-- C9: if the registry fetch fails, the envelope's `success` is not
`true`, or some contract's ABI fetch fails or returns a `result` that is
not valid embedded JSON, the run aborts with an error while the
filesystem still holds exactly the initial files and no write event has
occurred. -/
theorem claim9_fetch_failure_aborts_before_writes
    (update : Bool) (outdir : String) (idx : Int)
    (registry : Except String RegistryResponse)
    (abiFetch : String → Except String String) (fs0 : String → Option String)
    (h : (∃ e, registry = .error e) ∨
         (∃ reg, registry = .ok reg ∧ reg.success = false) ∨
         (∃ reg item rc, registry = .ok reg ∧ reg.success = true ∧
            item ∈ reg.data ∧ listGetInt item.contracts idx = some rc ∧
            ((∃ e, abiFetch rc.ABIUrl = .error e) ∨
             (∃ s, abiFetch rc.ABIUrl = .ok s ∧ jsParse s = none)))) :
    (runScript update outdir idx registry abiFetch fs0).2.isSome = true ∧
    (∀ p, (runScript update outdir idx registry abiFetch fs0).1.files p = fs0 p) ∧
    (∀ pth ct, Event.write pth ct ∉
        (runScript update outdir idx registry abiFetch fs0).1.events) := by
  have herr : ∃ e', getContracts idx registry abiFetch = .error e' := by
    rcases h with ⟨e, he⟩ | ⟨reg, hr, hs⟩ | ⟨reg, item, rc, hr, hs, hi, hrc, habi⟩
    · exact ⟨"Error: " ++ e, by simp [getContracts, he]⟩
    · exact ⟨"Error: Failed to fetch data.", by simp [getContracts, hr, hs]⟩
    · exact getContracts_error_of_abi_failure idx registry abiFetch reg item rc
        hr hs hi hrc habi
  obtain ⟨e', he'⟩ := herr
  rw [runScript_getContracts_error update outdir idx registry abiFetch fs0 e' he']
  refine ⟨rfl, fun p => rfl, ?_⟩
  intro pth ct hmem
  simp at hmem

/-- Witness for C9: a failing registry fetch. -/
theorem claim9_witness :
    (runScript false "o" 0 (.error "connection refused") emptyAbiFetch emptyFs).2.isSome
        = true ∧
    (runScript false "o" 0 (.error "connection refused") emptyAbiFetch
        emptyFs).1.files "o/types.ts" = emptyFs "o/types.ts" ∧
    Event.write "o/types.ts" "x" ∉
      (runScript false "o" 0 (.error "connection refused") emptyAbiFetch
        emptyFs).1.events := by
  have h := claim9_fetch_failure_aborts_before_writes false "o" 0
    (.error "connection refused") emptyAbiFetch emptyFs
    (Or.inl ⟨"connection refused", rfl⟩)
  exact ⟨h.1, h.2.1 "o/types.ts", h.2.2 "o/types.ts" "x"⟩

/-- C10: when the `--index` argument is an integer that is not a valid
position in some registry entry's `contracts` array (there is no bounds
check restricting it to 0 or 1 — any out-of-range or negative integer is
accepted), `getContracts` throws and the whole run aborts before any file
is written. -/
theorem claim10_invalid_index_aborts
    (update : Bool) (outdir : String) (idx : Int)
    (registry : Except String RegistryResponse)
    (abiFetch : String → Except String String) (fs0 : String → Option String)
    (reg : RegistryResponse) (item : RegItem)
    (h1 : registry = .ok reg) (h2 : reg.success = true) (h3 : item ∈ reg.data)
    (h4 : listGetInt item.contracts idx = none) :
    (runScript update outdir idx registry abiFetch fs0).2.isSome = true ∧
    (∀ p, (runScript update outdir idx registry abiFetch fs0).1.files p = fs0 p) ∧
    (∀ pth ct, Event.write pth ct ∉
        (runScript update outdir idx registry abiFetch fs0).1.events) := by
  obtain ⟨e', he'⟩ := getContracts_error_of_bad_index idx registry abiFetch
    reg item h1 h2 h3 h4
  rw [runScript_getContracts_error update outdir idx registry abiFetch fs0 e' he']
  refine ⟨rfl, fun p => rfl, ?_⟩
  intro pth ct hmem
  simp at hmem

/-- Witness for C10: index 5 on a registry whose only item has one
contract entry. -/
theorem claim10_witness :
    (runScript false "o" 5 (.ok fooRegistry) emptyAbiFetch emptyFs).2.isSome = true ∧
    (runScript false "o" 5 (.ok fooRegistry) emptyAbiFetch
        emptyFs).1.files "o/Foo.sol/Foo.json" = emptyFs "o/Foo.sol/Foo.json" ∧
    Event.write "o/Foo.sol/Foo.json" "x" ∉
      (runScript false "o" 5 (.ok fooRegistry) emptyAbiFetch emptyFs).1.events := by
  have h := claim10_invalid_index_aborts false "o" 5 (.ok fooRegistry)
    emptyAbiFetch emptyFs fooRegistry fooItem rfl rfl (by decide) (by decide)
  exact ⟨h.1, h.2.1 "o/Foo.sol/Foo.json", h.2.2 "o/Foo.sol/Foo.json" "x"⟩

end GetLit
